import Mathlib

/-!
Shallow embedding of the two CSV post-processing scripts of this repository:
`src/tools/ckpoint_aggregate_accuracy.py` (the aggregator) and
`src/tools/ckpoint_diff.py` (the differ).

A CSV record is modelled as an ordered association list from column name to
string value.  All field accesses in the scripts are covered by the data-model
invariants (the required columns are present); an absent key is modelled as
the empty string, matching the blank value `csv.DictWriter` writes for a
missing column.  Python `float` division is modelled exactly over `ℚ`.
-/

/-- A CSV row: ordered association list of column name to string value,
mirroring the `dict` produced by `csv.DictReader`. -/
structure Row where
  cols : List (String × String)
deriving DecidableEq, Inhabited

/-- Field access `row[field]`; absent keys give the blank value `""`
(the value `csv.DictWriter` writes for a missing column). -/
def Row.get (r : Row) (k : String) : String :=
  (List.lookup k r.cols).getD ""

/-- Column names of a row, in order: `row.keys()`. -/
def Row.keys (r : Row) : List String :=
  r.cols.map Prod.fst

/-- Distinct elements of a list keeping the first occurrence of each,
mirroring Python dict-key insertion order. -/
def firstSeen : List String → List String
  | [] => []
  | a :: l => a :: (firstSeen l).filter (fun b => b ≠ a)

/-- `entry_index` value of a row. -/
def entryKey (r : Row) : String := r.get "entry_index"

/-- The rows of a file sharing a given `entry_index` value, in file order:
the group built by `defaultdict(list)` grouping (empty if absent). -/
def groupOf (rows : List Row) (k : String) : List Row :=
  rows.filter (fun r => entryKey r == k)

/-- The distinct `entry_index` values of a row list, first-seen order
(the keys of the grouping dict). -/
def entryKeys (rows : List Row) : List String :=
  firstSeen (rows.map entryKey)

/-! ## Aggregator: `ckpoint_aggregate_accuracy.py` -/

/-- Number of entry groups with at least one row whose `field` value is
exactly `"true"` (the `sum(1 for ... if any(...))` expressions of
`calculate_aggregate_stats`). -/
def anyTrueCount (field : String) (rows : List Row) : ℕ :=
  ((entryKeys rows).filter
    (fun k => (groupOf rows k).any (fun r => r.get field == "true"))).length

/-- `calculate_aggregate_stats`: group rows by `entry_index` and return the
three accuracy ratios (`correct`, `correct_aligned`, `correct_stripped`),
or `(0,0,0)` when there are no entry groups.  Python float division is
modelled exactly over `ℚ`. -/
def calculate_aggregate_stats (rows : List Row) : ℚ × ℚ × ℚ :=
  let total : ℕ := (entryKeys rows).length
  if total = 0 then (0, 0, 0)
  else ((anyTrueCount "correct" rows : ℚ) / total,
        (anyTrueCount "correct_aligned" rows : ℚ) / total,
        (anyTrueCount "correct_stripped" rows : ℚ) / total)

/-- Left-pad the decimal digits of `m` with zeros to width 6. -/
def pad6 (m : ℕ) : String :=
  let s := toString m
  String.mk (List.replicate (6 - s.length) '0') ++ s

/-- The `f-string` formatting `f"{x:.6f}"` for a nonnegative value, modelled
over `ℚ`: round to six decimal places and print with exactly six digits
after the decimal point. -/
def format6 (q : ℚ) : String :=
  let n : ℤ := round (q * 1000000)
  toString (n / 1000000) ++ "." ++ pad6 (n % 1000000).toNat

/-- The data row the aggregator emits: each accuracy multiplied by 100 and
formatted with six digits after the decimal point. -/
def aggDataRow (rows : List Row) : List String :=
  let s := calculate_aggregate_stats rows
  [format6 (s.1 * 100), format6 (s.2.1 * 100), format6 (s.2.2 * 100)]

/-- The emitted data row as one CSV line. -/
def aggDataLine (rows : List Row) : String :=
  String.intercalate "," (aggDataRow rows)

/-- Where a diagnostic line of the command-line prelude goes. -/
inductive OutStream where
  | stdout
  | stderr
deriving DecidableEq

/-- An early exit of `main`: exit code plus the diagnostic message and the
stream it is printed to. -/
structure CliExit where
  code : ℕ
  stream : OutStream
  message : String
deriving DecidableEq

/-- The aggregator usage string printed by `main`. -/
def aggUsage : String :=
  "Usage: python aggregate_stats.py <model_regex> <file1.csv> [file2.csv] ..."

/-- The argument-count and regex-compilation prelude of the aggregator
`main`.  `argv` includes the program name (`sys.argv`); `len(sys.argv) < 3`
means fewer than two user-supplied arguments.  `print(...)` without a
`file=` argument goes to standard output.  Regex compilation is not
modelled; `compileError` is `some e` when `re.compile` raises `re.error e`.
Returns `some exit` when `main` exits early, `none` when it proceeds. -/
def aggMainPrelude (argv : List String) (compileError : Option String) :
    Option CliExit :=
  if argv.length < 3 then
    some ⟨1, OutStream.stdout, aggUsage⟩
  else
    match compileError with
    | some e => some ⟨1, OutStream.stderr, "Invalid regex: " ++ e⟩
    | none => none

/-! ## Differ: `ckpoint_diff.py` -/

/-- The internal-consistency check of `find_differing_rows` for one group:
every row after the first agrees with the first row on every requested
field. -/
def consistent (fields : List String) (g : List Row) : Bool :=
  g.tail.all (fun row => fields.all (fun f => g.headI.get f == row.get f))

/-- The `for row1, row2 in zip(group1, group2)` loop of
`find_differing_rows`.  The two tautological sub-expressions
(`1 or row2[field] == "true"` and `1 or row1[field] == "false"`) reduce the
first test to `row1[field] != "false"` and the second to
`row2[field] != "true"`; either test breaks the loop with a cleared flag.
Returns the last processed `row2` when both flags survive the whole loop
(the row appended to `differing_rows`), `none` otherwise. -/
def findDiffInEntry (fields : List String) : List (Row × Row) → Option Row
  | [] => none
  | (r1, r2) :: rest =>
    if fields.any (fun f => !(r1.get f == "false")) then none
    else if fields.any (fun f => !(r2.get f == "true")) then none
    else if rest.isEmpty then some r2
    else findDiffInEntry fields rest

/-- The body of the per-entry loop of `find_differing_rows`: skip on length
mismatch, skip on internal inconsistency, else run the pairwise
comparison. -/
def processEntry (fields : List String) (g1 g2 : List Row) : Option Row :=
  if g1.length ≠ g2.length then none
  else if ¬ (consistent fields g1 ∧ consistent fields g2) then none
  else findDiffInEntry fields (g1.zip g2)

/-- The union of the `entry_index` values of the two files.  The script
iterates a Python `set`, whose order is unspecified; this embedding fixes
the canonical first-seen order (file1 keys then new file2 keys), which has
the same membership. -/
def entryIndices (rows1 rows2 : List Row) : List String :=
  firstSeen (rows1.map entryKey ++ rows2.map entryKey)

/-- `find_differing_rows`: group both files by `entry_index` and collect,
over the union of the indices, the differing row of every entry the
per-entry comparison reports. -/
def find_differing_rows (rows1 rows2 : List Row) (fields : List String) :
    List Row :=
  (entryIndices rows1 rows2).filterMap
    (fun idx => processEntry fields (groupOf rows1 idx) (groupOf rows2 idx))

/-- `startsWith` on character lists. -/
def listStartsWith : List Char → List Char → Bool
  | _, [] => true
  | [], _ :: _ => false
  | a :: hs, b :: ps => a == b && listStartsWith hs ps

/-- Literal substring test on character lists, the semantics of
`re.search(re.escape(pat), hay)`. -/
def listContains : List Char → List Char → Bool
  | [], ps => ps.isEmpty
  | h :: t, ps => listStartsWith (h :: t) ps || listContains t ps

/-- The cross-reference test of `main`: the reference row's `Description`
contains the differing row's `patch_commit_hash` as a literal substring. -/
def matchesRef (testRow row : Row) : Bool :=
  listContains (testRow.get "Description").data (row.get "patch_commit_hash").data

/-- The row passed to `writer.writerow` for one collected differing row:
the first matching reference row in reference-file order, or the differing
row itself when none matches.  Whether the writer accepts the row is a
separate check (`rowFits`): `DictWriter` raises `ValueError` on a row with
a column outside the header (`extrasaction` defaults to `raise`). -/
def emitRow (testRows : List Row) (row : Row) : Row :=
  (testRows.find? (fun t => matchesRef t row)).getD row

/-- The rows handed to the writer, in collection order.  All of them are
actually written exactly when each passes the header check; the real loop
aborts with `ValueError` at the first row that does not (see
`writeLoop`). -/
def emittedRows (testRows diffRows : List Row) : List Row :=
  diffRows.map (emitRow testRows)

/-- The value of `count` after the emission loop: incremented only when the
inner reference loop breaks on a match, i.e. the number of differing rows
with a matching reference row.  It is printed to standard error only when
the loop completes without an uncaught `ValueError` (see `writeLoop`). -/
def differCount (testRows diffRows : List Row) : ℕ :=
  (diffRows.filter
    (fun r => (testRows.find? (fun t => matchesRef t r)).isSome)).length

/-- Index-error skeleton of the differ's output phase, scoped to the
`test_rows[0]` access.  `some none`: no differing rows, nothing (not even a
header) written.  `some (some (header, rows))`: the first reference row's
column names and the row sequence handed to the writer (whether each is
accepted is the writer's own key check, modelled by `differRun`).  `none`:
uncaught `IndexError` from `test_rows[0]` on an empty reference file. -/
def differOutput (testRows diffRows : List Row) :
    Option (Option (List String × List Row)) :=
  if diffRows.isEmpty then some none
  else
    match testRows with
    | [] => none
    | t :: _ => some (some (t.keys, emittedRows testRows diffRows))

/-- `DictWriter.writerow` accepts a row (with `extrasaction` left at its
default `raise`) exactly when `wrong_fields = rowdict.keys() - fieldnames`
is empty: every column of the row appears in the header.  Missing columns
are filled with the blank `restval`. -/
def rowFits (fieldnames : List String) (r : Row) : Bool :=
  r.keys.all (fun k => fieldnames.contains k)

/-- The emission loop of `main` over the collected differing rows: each
iteration passes `emitRow` to `writer.writerow`, which raises `ValueError`
when the row has a column outside the header.  Returns the rows actually
written and `some count` when the loop completes (`count` is then printed
to standard error), or `none` when it aborts with the uncaught
`ValueError` (nothing further is written and `print(count)` never runs). -/
def writeLoop (testRows : List Row) (fieldnames : List String) :
    List Row → List Row × Option ℕ
  | [] => ([], some 0)
  | r :: rest =>
    if rowFits fieldnames (emitRow testRows r) then
      match writeLoop testRows fieldnames rest with
      | (ws, some c) =>
        (emitRow testRows r :: ws,
          some ((if (testRows.find? (fun t => matchesRef t r)).isSome
            then 1 else 0) + c))
      | (ws, none) => (emitRow testRows r :: ws, none)
    else ([], none)

/-- Outcome of the differ's full output phase (lines 119-136). -/
inductive DifferRun where
  /-- `test_rows[0]` raised `IndexError`: no output at all. -/
  | indexError
  /-- `DictWriter.writerow` raised `ValueError` on a row with a column
  outside the header: the header and `written` rows are on standard output
  and `print(count)` never executes. -/
  | valueError (header : List String) (written : List Row)
  /-- Normal completion: `hdr` is `none` when no differing rows were
  collected (nothing written, not even a header); `count` is printed to
  standard error. -/
  | ok (hdr : Option (List String)) (written : List Row) (count : ℕ)
deriving DecidableEq

/-- The differ's full output phase, including the writer's `ValueError`
path: no differing rows print `count = 0` with no output; otherwise the
header is the first reference row's column names and the emission loop runs
until completion or its first rejected row. -/
def differRun (testRows diffRows : List Row) : DifferRun :=
  if diffRows.isEmpty then DifferRun.ok none [] 0
  else
    match testRows with
    | [] => DifferRun.indexError
    | t :: _ =>
      match writeLoop testRows t.keys diffRows with
      | (ws, none) => DifferRun.valueError t.keys ws
      | (ws, some c) => DifferRun.ok (some t.keys) ws c

/-! ## Concrete fixtures (end-to-end scenario B of the spec) -/

/-- Scenario B `file1` row: `entry_index=5`, `field=false`. -/
def rowF1 : Row := ⟨[("entry_index", "5"), ("patch_commit_hash", "abc123"),
  ("field", "false")]⟩

/-- Scenario B `file2` row: `entry_index=5`, `field=true`. -/
def rowF2 : Row := ⟨[("entry_index", "5"), ("patch_commit_hash", "abc123"),
  ("field", "true")]⟩

/-- Scenario B reference row: its `Description` does not contain the
hash. -/
def refRow : Row := ⟨[("Description", "no match here"), ("entry_index", "5")]⟩

/-- Scenario B reference row whose header covers the result rows' columns
(so `DictWriter.writerow` accepts the differing row) and whose
`Description` still does not contain the hash. -/
def refRowB : Row := ⟨[("Description", "no match here"), ("entry_index", "5"),
  ("patch_commit_hash", "zzz"), ("field", "x")]⟩

/-! ## Helper lemmas -/

theorem mem_firstSeen {a : String} : ∀ {l : List String}, a ∈ firstSeen l ↔ a ∈ l
  | [] => Iff.rfl
  | b :: l => by
    simp only [firstSeen, List.mem_cons, List.mem_filter]
    constructor
    · rintro (rfl | ⟨h, -⟩)
      · exact Or.inl rfl
      · exact Or.inr (mem_firstSeen.mp h)
    · rintro (rfl | h)
      · exact Or.inl rfl
      · by_cases hab : a = b
        · exact Or.inl hab
        · exact Or.inr ⟨mem_firstSeen.mpr h, by simpa using hab⟩

theorem nodup_firstSeen : ∀ (l : List String), (firstSeen l).Nodup
  | [] => List.nodup_nil
  | b :: l => by
    refine List.Nodup.cons ?_ ((nodup_firstSeen l).filter _)
    intro hb
    simp at hb

theorem entryKey_of_mem_groupOf {rows : List Row} {k : String} {r : Row}
    (h : r ∈ groupOf rows k) : entryKey r = k := by
  have := (List.mem_filter.mp h).2
  simpa using this

theorem findDiffInEntry_mem (fields : List String) :
    ∀ (pairs : List (Row × Row)) (r : Row),
      findDiffInEntry fields pairs = some r → ∃ p ∈ pairs, r = p.2
  | [], r => by simp [findDiffInEntry]
  | (r1, r2) :: rest, r => by
    simp only [findDiffInEntry]
    split
    · simp
    · split
      · simp
      · split
        · intro h
          exact ⟨(r1, r2), List.mem_cons_self _ _, (Option.some.injEq _ _ ▸ h).symm⟩
        · intro h
          obtain ⟨p, hp, hr⟩ := findDiffInEntry_mem fields rest r h
          exact ⟨p, List.mem_cons_of_mem _ hp, hr⟩

theorem processEntry_mem {fields : List String} {g1 g2 : List Row} {r : Row}
    (h : processEntry fields g1 g2 = some r) : r ∈ g2 := by
  unfold processEntry at h
  split at h
  · exact absurd h (by simp)
  · split at h
    · exact absurd h (by simp)
    · obtain ⟨p, hp, hr⟩ := findDiffInEntry_mem fields _ r h
      exact hr ▸ (List.of_mem_zip hp).2

theorem find_differing_rows_mem {rows1 rows2 : List Row} {fields : List String}
    {r : Row} (h : r ∈ find_differing_rows rows1 rows2 fields) :
    processEntry fields (groupOf rows1 (entryKey r)) (groupOf rows2 (entryKey r))
      = some r := by
  obtain ⟨idx, -, hp⟩ := List.mem_filterMap.mp h
  have : entryKey r = idx := entryKey_of_mem_groupOf (processEntry_mem hp)
  rwa [this]

/-- C6: an entry whose two groups have different lengths is never reported:
no collected differing row carries that `entry_index`.  (An absent group is
the empty list, so this covers entries present in only one file.) -/
theorem differ_skips_unequal_groups (rows1 rows2 : List Row)
    (fields : List String) (idx : String)
    (h : (groupOf rows1 idx).length ≠ (groupOf rows2 idx).length) :
    idx ∉ (find_differing_rows rows1 rows2 fields).map entryKey := by
  intro hmem
  obtain ⟨r, hr, hkey⟩ := List.mem_map.mp hmem
  have hp := find_differing_rows_mem hr
  rw [hkey] at hp
  unfold processEntry at hp
  rw [if_pos h] at hp
  exact absurd hp (by simp)

/-- C6 witness: with two file1 rows and one file2 row for entry `5`, the
group lengths differ and no reported row carries entry index `5`. -/
theorem differ_skips_unequal_groups_witness :
    (groupOf [rowF1, rowF1] "5").length ≠ (groupOf [rowF2] "5").length ∧
    "5" ∉ (find_differing_rows [rowF1, rowF1] [rowF2] ["field"]).map entryKey :=
  ⟨by decide, differ_skips_unequal_groups [rowF1, rowF1] [rowF2] ["field"] "5"
    (by decide)⟩

theorem consistent_eq_false {fields : List String} {g : List Row}
    (h : ∃ r ∈ g, ∃ f ∈ fields, ¬ g.headI.get f = r.get f) :
    ¬ consistent fields g = true := by
  obtain ⟨r, hr, f, hf, hne⟩ := h
  match g, hr with
  | a :: t, hr =>
    rcases List.mem_cons.mp hr with rfl | ht
    · exact absurd rfl hne
    · intro hcons
      have := List.all_eq_true.mp hcons r (by simpa using ht)
      have := List.all_eq_true.mp this f hf
      exact hne (by simpa [List.headI] using this)

/-- C7: an entry whose groups have equal length but where some row of either
group disagrees with that group's first row on a requested field is skipped:
no collected differing row carries that `entry_index`. -/
theorem differ_skips_inconsistent_groups (rows1 rows2 : List Row)
    (fields : List String) (idx : String)
    (hlen : (groupOf rows1 idx).length = (groupOf rows2 idx).length)
    (hinc :
      (∃ r ∈ groupOf rows1 idx, ∃ f ∈ fields,
        ¬ (groupOf rows1 idx).headI.get f = r.get f) ∨
      (∃ r ∈ groupOf rows2 idx, ∃ f ∈ fields,
        ¬ (groupOf rows2 idx).headI.get f = r.get f)) :
    idx ∉ (find_differing_rows rows1 rows2 fields).map entryKey := by
  intro hmem
  obtain ⟨r, hr, hkey⟩ := List.mem_map.mp hmem
  have hp := find_differing_rows_mem hr
  rw [hkey] at hp
  unfold processEntry at hp
  rw [if_neg (by simpa using hlen)] at hp
  have hnc : ¬ (consistent fields (groupOf rows1 idx) = true ∧
      consistent fields (groupOf rows2 idx) = true) := by
    rcases hinc with hinc | hinc
    · exact fun hc => consistent_eq_false hinc hc.1
    · exact fun hc => consistent_eq_false hinc hc.2
  rw [if_pos hnc] at hp
  exact absurd hp (by simp)

/-- A file1 row for entry `5` that disagrees with `rowF1` on `field`. -/
def rowF1x : Row := ⟨[("entry_index", "5"), ("patch_commit_hash", "abc123"),
  ("field", "true")]⟩

/-- C7 witness: equal-length groups for entry `5`, file1's group internally
inconsistent on `field`; entry `5` is not reported. -/
theorem differ_skips_inconsistent_groups_witness :
    (groupOf [rowF1, rowF1x] "5").length = (groupOf [rowF2, rowF2] "5").length ∧
    "5" ∉ (find_differing_rows [rowF1, rowF1x] [rowF2, rowF2] ["field"]).map
      entryKey :=
  ⟨by decide,
   differ_skips_inconsistent_groups [rowF1, rowF1x] [rowF2, rowF2] ["field"] "5"
     (by decide) (Or.inl (by decide))⟩

/-- C10: with at least one differing row collected, the output phase reads
`test_rows[0]`; on an empty reference file this is an uncaught `IndexError`
(modelled as `none`) before any output, and with a nonempty reference file
the output phase is always well-defined. -/
theorem differ_needs_reference_row (testRows diffRows : List Row) :
    (diffRows ≠ [] → differOutput [] diffRows = none) ∧
    (testRows ≠ [] → (differOutput testRows diffRows).isSome = true) := by
  constructor
  · intro hd
    simp [differOutput, hd]
  · intro ht
    match testRows, ht with
    | t :: ts, _ =>
      by_cases hd : diffRows.isEmpty <;> simp [differOutput, hd]

/-- C10 witness: the empty reference file with one collected row yields the
uncaught error; the one-row reference file yields defined output. -/
theorem differ_needs_reference_row_witness :
    differOutput [] [rowF2] = none ∧
    (differOutput [refRow] [rowF2]).isSome = true :=
  ⟨(differ_needs_reference_row [] [rowF2]).1 (by decide),
   (differ_needs_reference_row [refRow] [rowF2]).2 (by decide)⟩

/-- C1 counterexample: in end-to-end scenario B (file1 row
`entry_index=5, field=false`, file2 row `entry_index=5, field=true`, no
reference row whose `Description` contains the hash, and a reference header
covering the file2 row's columns so the writer accepts it) the run
completes with exactly one written row — equal to the file2 row — yet the
count printed to standard error is `0`, not `1`: the printed integer does
not equal the number of emitted rows. -/
theorem differ_count_counterexample :
    find_differing_rows [rowF1] [rowF2] ["field"] = [rowF2] ∧
    matchesRef refRowB rowF2 = false ∧
    differRun [refRowB] [rowF2]
      = DifferRun.ok (some refRowB.keys) [rowF2] 0 ∧
    ([rowF2] : List Row).length = 1 ∧ (0 : ℕ) ≠ 1 := by
  refine ⟨by decide, by decide, by decide, by decide, by decide⟩

theorem writeLoop_ok_char (testRows : List Row) (fieldnames : List String) :
    ∀ (l ws : List Row) (c : ℕ),
      writeLoop testRows fieldnames l = (ws, some c) →
      ws = l.map (emitRow testRows) ∧
      c = (l.filter
        (fun r => (testRows.find? (fun t => matchesRef t r)).isSome)).length
  | [], ws, c => by
    intro h
    simp only [writeLoop, Prod.mk.injEq, Option.some.injEq] at h
    simp [← h.1, ← h.2]
  | r :: rest, ws, c => by
    intro h
    simp only [writeLoop] at h
    split at h
    · rcases hrec : writeLoop testRows fieldnames rest with ⟨ws', oc⟩
      rw [hrec] at h
      cases oc with
      | none => simp at h
      | some cr =>
        simp only [Prod.mk.injEq, Option.some.injEq] at h
        obtain ⟨hws, hc⟩ := h
        obtain ⟨ih1, ih2⟩ := writeLoop_ok_char testRows fieldnames rest ws' cr hrec
        constructor
        · rw [← hws, ih1, List.map_cons]
        · rcases hp : (testRows.find? (fun t => matchesRef t r)).isSome with - | -
          · rw [← hc, hp, ih2]
            simp [List.filter_cons, hp]
          · rw [← hc, hp, ih2]
            simp [List.filter_cons, hp]
            omega
    · simp at h

/-- C1 (amended): whenever the differ's output phase completes without an
uncaught error, the integer printed to standard error equals the number of
collected differing rows for which some reference row's `Description`
contains the row's `patch_commit_hash` (the rows emitted from the reference
file); it never exceeds the number of rows written to standard output.  In
scenario B (with the reference header covering the file2 row's columns) one
row equal to the file2 row is written and standard error prints `0`. -/
theorem differ_count_matched_rows (testRows diffRows : List Row)
    (hdr : Option (List String)) (ws : List Row) (c : ℕ)
    (h : differRun testRows diffRows = DifferRun.ok hdr ws c) :
    c = (diffRows.filter
        (fun r => (testRows.find? (fun t => matchesRef t r)).isSome)).length ∧
    c ≤ ws.length := by
  unfold differRun at h
  split at h
  next hemp =>
    have he : diffRows = [] := List.isEmpty_iff.mp hemp
    subst he
    simp only [DifferRun.ok.injEq] at h
    obtain ⟨-, hws, hc⟩ := h
    simp [← hws, ← hc]
  next hemp =>
    cases testRows with
    | nil => simp at h
    | cons t ts =>
      dsimp only at h
      rcases hrec : writeLoop (t :: ts) t.keys diffRows with ⟨ws', oc⟩
      rw [hrec] at h
      cases oc with
      | none => simp at h
      | some cr =>
        simp only [DifferRun.ok.injEq] at h
        obtain ⟨-, hws, hc⟩ := h
        obtain ⟨h1, h2⟩ := writeLoop_ok_char (t :: ts) t.keys diffRows ws' cr hrec
        refine ⟨by rw [← hc, h2], ?_⟩
        rw [← hc, ← hws, h1, h2, List.length_map]
        exact List.length_filter_le _ _

/-- C1 witness: scenario B with the covering reference header completes
with one written row and printed count `0`. -/
theorem differ_count_matched_rows_witness :
    (0 : ℕ) = ([rowF2].filter
        (fun r =>
          (([refRowB] : List Row).find? (fun t => matchesRef t r)).isSome)).length ∧
    (0 : ℕ) ≤ ([rowF2] : List Row).length :=
  differ_count_matched_rows [refRowB] [rowF2] (some refRowB.keys) [rowF2] 0
    (by decide)

/-- C3 counterexample: invoked with one user argument (fewer than two), the
aggregator exits with code 1 but prints the usage message to standard
output, not to standard error. -/
theorem aggregator_usage_counterexample :
    aggMainPrelude ["aggregate_stats.py", "gpt.*"] none
      = some ⟨1, OutStream.stdout, aggUsage⟩ ∧
    OutStream.stdout ≠ OutStream.stderr := by
  refine ⟨by decide, by decide⟩

/-- C3 (amended): with fewer than two user arguments (`len(sys.argv) < 3`)
the aggregator prints the usage message to standard output and exits with
code 1; with enough arguments but a pattern that fails to compile it prints
the error to standard error and exits with code 1; otherwise it
proceeds. -/
theorem aggregator_usage_and_regex_exit (argv : List String)
    (err : Option String) (e : String) :
    (argv.length < 3 →
      aggMainPrelude argv err = some ⟨1, OutStream.stdout, aggUsage⟩) ∧
    (3 ≤ argv.length →
      aggMainPrelude argv (some e)
        = some ⟨1, OutStream.stderr, "Invalid regex: " ++ e⟩) ∧
    (3 ≤ argv.length → aggMainPrelude argv none = none) := by
  refine ⟨fun h => ?_, fun h => ?_, fun h => ?_⟩ <;>
    simp [aggMainPrelude, h, Nat.not_lt.mpr h]

/-- C3 witness: concrete invocations exercising all three branches. -/
theorem aggregator_usage_and_regex_exit_witness :
    aggMainPrelude ["aggregate_stats.py"] none
      = some ⟨1, OutStream.stdout, aggUsage⟩ ∧
    aggMainPrelude ["aggregate_stats.py", "gpt.*", "a.csv"] (some "boom")
      = some ⟨1, OutStream.stderr, "Invalid regex: boom"⟩ ∧
    aggMainPrelude ["aggregate_stats.py", "gpt.*", "a.csv"] none = none :=
  ⟨(aggregator_usage_and_regex_exit ["aggregate_stats.py"] none "boom").1
     (by decide),
   (aggregator_usage_and_regex_exit ["aggregate_stats.py", "gpt.*", "a.csv"]
     none "boom").2.1 (by decide),
   (aggregator_usage_and_regex_exit ["aggregate_stats.py", "gpt.*", "a.csv"]
     none "boom").2.2 (by decide)⟩

theorem format6_zero : format6 0 = "0.000000" := by
  have h : round ((0 : ℚ) * 1000000) = 0 := by norm_num
  unfold format6
  rw [h]
  rfl

/-- C5: when the filtered rows produce zero entry groups,
`calculate_aggregate_stats` returns `(0, 0, 0)` (no division error) and the
emitted data row is exactly `0.000000,0.000000,0.000000`. -/
theorem aggregator_zero_groups (rows : List Row)
    (h : (entryKeys rows).length = 0) :
    calculate_aggregate_stats rows = (0, 0, 0) ∧
    aggDataLine rows = "0.000000,0.000000,0.000000" := by
  have hs : calculate_aggregate_stats rows = (0, 0, 0) := by
    unfold calculate_aggregate_stats
    simp [h]
  refine ⟨hs, ?_⟩
  unfold aggDataLine aggDataRow
  rw [hs]
  norm_num [format6_zero]
  rfl

/-- C5 witness: the empty row list has zero entry groups. -/
theorem aggregator_zero_groups_witness :
    (entryKeys ([] : List Row)).length = 0 ∧
    calculate_aggregate_stats [] = (0, 0, 0) ∧
    aggDataLine [] = "0.000000,0.000000,0.000000" :=
  ⟨rfl, (aggregator_zero_groups [] rfl).1, (aggregator_zero_groups [] rfl).2⟩

theorem agg_component_props (c t : ℕ) (hct : c ≤ t) :
    0 ≤ (if t = 0 then (0 : ℚ) else (c : ℚ) / (t : ℚ)) * 100 ∧
    (if t = 0 then (0 : ℚ) else (c : ℚ) / (t : ℚ)) * 100 ≤ 100 ∧
    (if t = 0 then (0 : ℚ) else (c : ℚ) / (t : ℚ)) * 100
      = 100 * (c : ℚ) / (t : ℚ) := by
  rcases Nat.eq_zero_or_pos t with ht | ht
  · have hc : c = 0 := Nat.le_zero.mp (ht ▸ hct)
    subst ht hc
    norm_num
  · have htq : (0 : ℚ) < (t : ℚ) := by exact_mod_cast ht
    rw [if_neg (Nat.pos_iff_ne_zero.mp ht)]
    have hle : (c : ℚ) / (t : ℚ) ≤ 1 :=
      (div_le_one htq).mpr (by exact_mod_cast hct)
    refine ⟨by positivity, ?_, by ring⟩
    calc (c : ℚ) / (t : ℚ) * 100 ≤ 1 * 100 := by
          exact mul_le_mul_of_nonneg_right hle (by norm_num)
      _ = 100 := by norm_num

/-- C4: each accuracy, multiplied by 100 as emitted, lies in `[0, 100]` and
equals `100 *` (number of entry groups with at least one `"true"` in the
field) `/` (number of distinct `entry_index` values); the emitted data row
is these three values formatted with six digits after the decimal point. -/
theorem aggregator_accuracy_formula (rows : List Row) :
    (0 ≤ (calculate_aggregate_stats rows).1 * 100 ∧
      (calculate_aggregate_stats rows).1 * 100 ≤ 100 ∧
      (calculate_aggregate_stats rows).1 * 100
        = 100 * (anyTrueCount "correct" rows : ℚ)
            / ((entryKeys rows).length : ℚ)) ∧
    (0 ≤ (calculate_aggregate_stats rows).2.1 * 100 ∧
      (calculate_aggregate_stats rows).2.1 * 100 ≤ 100 ∧
      (calculate_aggregate_stats rows).2.1 * 100
        = 100 * (anyTrueCount "correct_aligned" rows : ℚ)
            / ((entryKeys rows).length : ℚ)) ∧
    (0 ≤ (calculate_aggregate_stats rows).2.2 * 100 ∧
      (calculate_aggregate_stats rows).2.2 * 100 ≤ 100 ∧
      (calculate_aggregate_stats rows).2.2 * 100
        = 100 * (anyTrueCount "correct_stripped" rows : ℚ)
            / ((entryKeys rows).length : ℚ)) ∧
    aggDataRow rows = [format6 ((calculate_aggregate_stats rows).1 * 100),
      format6 ((calculate_aggregate_stats rows).2.1 * 100),
      format6 ((calculate_aggregate_stats rows).2.2 * 100)] := by
  have h1 : (calculate_aggregate_stats rows).1
      = if (entryKeys rows).length = 0 then (0 : ℚ)
        else (anyTrueCount "correct" rows : ℚ) / ((entryKeys rows).length : ℚ) := by
    simp only [calculate_aggregate_stats]
    split <;> rfl
  have h2 : (calculate_aggregate_stats rows).2.1
      = if (entryKeys rows).length = 0 then (0 : ℚ)
        else (anyTrueCount "correct_aligned" rows : ℚ)
          / ((entryKeys rows).length : ℚ) := by
    simp only [calculate_aggregate_stats]
    split <;> rfl
  have h3 : (calculate_aggregate_stats rows).2.2
      = if (entryKeys rows).length = 0 then (0 : ℚ)
        else (anyTrueCount "correct_stripped" rows : ℚ)
          / ((entryKeys rows).length : ℚ) := by
    simp only [calculate_aggregate_stats]
    split <;> rfl
  refine ⟨?_, ?_, ?_, rfl⟩
  · rw [h1]
    exact agg_component_props _ _ (List.length_filter_le _ _)
  · rw [h2]
    exact agg_component_props _ _ (List.length_filter_le _ _)
  · rw [h3]
    exact agg_component_props _ _ (List.length_filter_le _ _)

theorem length_eq_of_nodup_mem_iff {l1 l2 : List String} (h1 : l1.Nodup)
    (h2 : l2.Nodup) (h : ∀ a, a ∈ l1 ↔ a ∈ l2) : l1.length = l2.length := by
  rw [← List.toFinset_card_of_nodup h1, ← List.toFinset_card_of_nodup h2]
  congr 1
  ext a
  simpa using h a

theorem mem_entryKeys_iff {rows : List Row} {a : String} :
    a ∈ entryKeys rows ↔ ∃ r ∈ rows, entryKey r = a := by
  unfold entryKeys
  rw [mem_firstSeen]
  simp [eq_comm]

theorem groupOf_perm {rows rows' : List Row} (h : rows.Perm rows')
    (k : String) : (groupOf rows k).Perm (groupOf rows' k) :=
  h.filter _

theorem anyTrueCount_perm {rows rows' : List Row} (h : rows.Perm rows')
    (field : String) : anyTrueCount field rows = anyTrueCount field rows' := by
  unfold anyTrueCount
  have hp : ∀ k, ((groupOf rows k).any (fun r => r.get field == "true"))
      = ((groupOf rows' k).any (fun r => r.get field == "true")) := by
    intro k
    rcases hb : (groupOf rows' k).any (fun r => r.get field == "true") with - | -
    · rw [List.any_eq_false] at hb ⊢
      intro r hr
      exact hb r ((groupOf_perm h k).mem_iff.mp hr)
    · rw [List.any_eq_true] at hb ⊢
      obtain ⟨r, hr, hrt⟩ := hb
      exact ⟨r, (groupOf_perm h k).mem_iff.mpr hr, hrt⟩
  apply length_eq_of_nodup_mem_iff
  · exact (nodup_firstSeen _).filter _
  · exact (nodup_firstSeen _).filter _
  · intro a
    simp only [List.mem_filter]
    rw [hp a]
    constructor
    · rintro ⟨ha, hb⟩
      refine ⟨?_, hb⟩
      rw [mem_entryKeys_iff] at ha ⊢
      obtain ⟨r, hr, hk⟩ := ha
      exact ⟨r, h.mem_iff.mp hr, hk⟩
    · rintro ⟨ha, hb⟩
      refine ⟨?_, hb⟩
      rw [mem_entryKeys_iff] at ha ⊢
      obtain ⟨r, hr, hk⟩ := ha
      exact ⟨r, h.mem_iff.mpr hr, hk⟩

theorem entryKeys_length_perm {rows rows' : List Row} (h : rows.Perm rows') :
    (entryKeys rows).length = (entryKeys rows').length := by
  apply length_eq_of_nodup_mem_iff (nodup_firstSeen _) (nodup_firstSeen _)
  intro a
  rw [mem_firstSeen, mem_firstSeen, (h.map entryKey).mem_iff]

/-- C9: `calculate_aggregate_stats` is invariant under any permutation of
the combined filtered row list. -/
theorem aggregator_perm_invariant (rows rows' : List Row)
    (h : rows.Perm rows') :
    calculate_aggregate_stats rows = calculate_aggregate_stats rows' := by
  unfold calculate_aggregate_stats
  rw [entryKeys_length_perm h, anyTrueCount_perm h "correct",
    anyTrueCount_perm h "correct_aligned", anyTrueCount_perm h "correct_stripped"]

/-- C9 witness: swapping two concrete rows leaves the statistics
unchanged. -/
theorem aggregator_perm_invariant_witness :
    calculate_aggregate_stats [rowF1, rowF2]
      = calculate_aggregate_stats [rowF2, rowF1] :=
  aggregator_perm_invariant [rowF1, rowF2] [rowF2, rowF1]
    (List.Perm.swap rowF2 rowF1 [])

theorem forall_zip_iff {α β : Type} (P : α → Prop) (Q : β → Prop) :
    ∀ (l1 : List α) (l2 : List β), l1.length = l2.length →
      ((∀ p ∈ l1.zip l2, P p.1 ∧ Q p.2) ↔ ((∀ a ∈ l1, P a) ∧ (∀ b ∈ l2, Q b)))
  | [], [], _ => by simp
  | [], b :: l2, h => by simp at h
  | a :: l1, [], h => by simp at h
  | a :: l1, b :: l2, h => by
    have ih := forall_zip_iff P Q l1 l2 (by simpa using h)
    constructor
    · intro hall
      have hhead := hall (a, b) (by simp)
      have htail := ih.mp (fun p hp => hall p (by simp [hp]))
      exact ⟨fun x hx => (List.mem_cons.mp hx).elim (fun he => he ▸ hhead.1)
          (fun hm => htail.1 x hm),
        fun y hy => (List.mem_cons.mp hy).elim (fun he => he ▸ hhead.2)
          (fun hm => htail.2 y hm)⟩
    · rintro ⟨hP, hQ⟩ p hp
      rcases List.mem_cons.mp hp with rfl | hp'
      · exact ⟨hP a (by simp), hQ b (by simp)⟩
      · exact (ih.mpr ⟨fun x hx => hP x (List.mem_cons_of_mem _ hx),
          fun y hy => hQ y (List.mem_cons_of_mem _ hy)⟩) p hp'

theorem findDiffInEntry_eq_some_iff (fields : List String) :
    ∀ (pairs : List (Row × Row)) (r : Row),
      findDiffInEntry fields pairs = some r ↔
        ((pairs.map Prod.snd).getLast? = some r ∧
          ∀ p ∈ pairs, (∀ f ∈ fields, p.1.get f = "false") ∧
            (∀ f ∈ fields, p.2.get f = "true"))
  | [], r => by simp [findDiffInEntry]
  | (r1, r2) :: rest, r => by
    simp only [findDiffInEntry]
    split
    next hcond =>
      obtain ⟨f, hf, hne⟩ := List.any_eq_true.mp hcond
      simp only [Bool.not_eq_true', beq_eq_false_iff_ne, ne_eq] at hne
      constructor
      · intro h
        exact absurd h (by simp)
      · rintro ⟨-, hall⟩
        exact absurd ((hall (r1, r2) (List.mem_cons_self _ _)).1 f hf) hne
    next hcond1 =>
      split
      next hcond =>
        obtain ⟨f, hf, hne⟩ := List.any_eq_true.mp hcond
        simp only [Bool.not_eq_true', beq_eq_false_iff_ne, ne_eq] at hne
        constructor
        · intro h
          exact absurd h (by simp)
        · rintro ⟨-, hall⟩
          exact absurd ((hall (r1, r2) (List.mem_cons_self _ _)).2 f hf) hne
      next hcond2 =>
        have hall1 : ∀ f ∈ fields, r1.get f = "false" := by
          intro f hf
          by_contra hne
          exact hcond1 (List.any_eq_true.mpr ⟨f, hf, by simp [hne]⟩)
        have hall2 : ∀ f ∈ fields, r2.get f = "true" := by
          intro f hf
          by_contra hne
          exact hcond2 (List.any_eq_true.mpr ⟨f, hf, by simp [hne]⟩)
        split
        next hrest =>
          have : rest = [] := List.isEmpty_iff.mp hrest
          subst this
          simp only [List.map_cons, List.map_nil, List.getLast?_singleton,
            List.mem_singleton]
          constructor
          · intro h
            have hr : r2 = r := by simpa using h
            exact ⟨by rw [hr], fun p hp => by
              subst hp
              exact ⟨hall1, hall2⟩⟩
          · rintro ⟨hlast, -⟩
            simpa using hlast
        next hrest =>
          cases rest with
          | nil => simp at hrest
          | cons p rest' =>
            rw [findDiffInEntry_eq_some_iff fields (p :: rest') r]
            simp only [List.map_cons, List.getLast?_cons_cons]
            constructor
            · rintro ⟨hlast, hall⟩
              refine ⟨hlast, fun q hq => ?_⟩
              rcases List.mem_cons.mp hq with rfl | hq'
              · exact ⟨hall1, hall2⟩
              · exact hall q hq'
            · rintro ⟨hlast, hall⟩
              exact ⟨hlast, fun q hq => hall q (List.mem_cons_of_mem _ hq)⟩

theorem map_snd_zip_of_length_eq {g1 g2 : List Row}
    (h : g1.length = g2.length) : (g1.zip g2).map Prod.snd = g2 :=
  List.map_snd_zip g1 g2 h.ge

/-- C2: for an entry whose groups have equal length and pass the
internal-consistency check, a row is recorded exactly when every requested
field is `"false"` in every file1 row and `"true"` in every file2 row of the
entry; the recorded row is the last row of the file2 group; consequently a
reported entry has, in the first row pair, the first requested field
`"false"` in `row1` and `"true"` in `row2`; and a recorded row is collected
into the differ's output. -/
theorem differ_entry_reported_iff (rows1 rows2 : List Row)
    (fields : List String) (idx : String)
    (hlen : (groupOf rows1 idx).length = (groupOf rows2 idx).length)
    (hc1 : consistent fields (groupOf rows1 idx) = true)
    (hc2 : consistent fields (groupOf rows2 idx) = true)
    (hne : groupOf rows2 idx ≠ []) :
    (processEntry fields (groupOf rows1 idx) (groupOf rows2 idx) ≠ none ↔
      ((∀ r ∈ groupOf rows1 idx, ∀ f ∈ fields, r.get f = "false") ∧
       (∀ r ∈ groupOf rows2 idx, ∀ f ∈ fields, r.get f = "true"))) ∧
    (∀ r, processEntry fields (groupOf rows1 idx) (groupOf rows2 idx) = some r →
      (groupOf rows2 idx).getLast? = some r) ∧
    (∀ f₀ fs, fields = f₀ :: fs →
      ∀ r, processEntry fields (groupOf rows1 idx) (groupOf rows2 idx) = some r →
        (groupOf rows1 idx).headI.get f₀ = "false" ∧
        (groupOf rows2 idx).headI.get f₀ = "true") ∧
    (idx ∈ entryIndices rows1 rows2 →
      ∀ r, processEntry fields (groupOf rows1 idx) (groupOf rows2 idx) = some r →
        r ∈ find_differing_rows rows1 rows2 fields) := by
  set g1 := groupOf rows1 idx with hg1
  set g2 := groupOf rows2 idx with hg2
  have hpe : processEntry fields g1 g2 = findDiffInEntry fields (g1.zip g2) := by
    unfold processEntry
    rw [if_neg (not_not_intro hlen), if_neg (not_not_intro ⟨hc1, hc2⟩)]
  have hmap : (g1.zip g2).map Prod.snd = g2 := map_snd_zip_of_length_eq hlen
  have hchar := fun r => findDiffInEntry_eq_some_iff fields (g1.zip g2) r
  refine ⟨?_, ?_, ?_, ?_⟩
  · rw [hpe, Option.ne_none_iff_exists']
    constructor
    · rintro ⟨r, hr⟩
      obtain ⟨-, hall⟩ := (hchar r).mp hr
      exact (forall_zip_iff _ _ g1 g2 hlen).mp hall
    · rintro ⟨h1, h2⟩
      obtain ⟨p, hp⟩ := Option.ne_none_iff_exists'.mp
        (by
          rw [← List.getLast?_isSome, hmap, List.getLast?_isSome] at *
          exact Option.isSome_iff_ne_none.mp
            (by rw [List.getLast?_isSome]; exact hne) :
          ((g1.zip g2).map Prod.snd).getLast? ≠ none)
      exact ⟨p, (hchar p).mpr ⟨hp,
        (forall_zip_iff _ _ g1 g2 hlen).mpr ⟨h1, h2⟩⟩⟩
  · intro r hr
    rw [hpe] at hr
    obtain ⟨hlast, -⟩ := (hchar r).mp hr
    rwa [hmap] at hlast
  · rintro f₀ fs rfl r hr
    rw [hpe] at hr
    obtain ⟨-, hall⟩ := (hchar r).mp hr
    match hg1e : g1, hg2e : g2, hne with
    | a :: t1, b :: t2, _ =>
      have hab : (a, b) ∈ (a :: t1).zip (b :: t2) := by
        rw [List.zip_cons_cons]
        exact List.mem_cons_self _ _
      have := hall (a, b) (by rw [← hg1e, ← hg2e] at hab ⊢; exact hab)
      exact ⟨this.1 f₀ (List.mem_cons_self _ _),
        this.2 f₀ (List.mem_cons_self _ _)⟩
  · intro hidx r hr
    exact List.mem_filterMap.mpr ⟨idx, hidx, hr⟩

/-- C2 witness: scenario-B groups for entry `5` satisfy the hypotheses; the
reported-iff characterization and the collection of the recorded row hold
there. -/
theorem differ_entry_reported_iff_witness :
    (processEntry ["field"] (groupOf [rowF1] "5") (groupOf [rowF2] "5") ≠ none ↔
      ((∀ r ∈ groupOf [rowF1] "5", ∀ f ∈ ["field"], r.get f = "false") ∧
       (∀ r ∈ groupOf [rowF2] "5", ∀ f ∈ ["field"], r.get f = "true"))) ∧
    ("5" ∈ entryIndices [rowF1] [rowF2] →
      ∀ r, processEntry ["field"] (groupOf [rowF1] "5") (groupOf [rowF2] "5")
          = some r →
        r ∈ find_differing_rows [rowF1] [rowF2] ["field"]) :=
  ⟨(differ_entry_reported_iff [rowF1] [rowF2] ["field"] "5"
      (by decide) (by decide) (by decide) (by decide)).1,
   (differ_entry_reported_iff [rowF1] [rowF2] ["field"] "5"
      (by decide) (by decide) (by decide) (by decide)).2.2.2⟩

theorem find?_eq_some_iff_first {α : Type} (p : α → Bool) :
    ∀ (l : List α) (a : α),
      l.find? p = some a ↔
        ∃ i, l[i]? = some a ∧ p a = true ∧ ∀ x ∈ l.take i, p x = false
  | [], a => by simp
  | b :: t, a => by
    rcases hb : p b with - | -
    · rw [List.find?_cons_of_neg _ (by simp [hb]),
        find?_eq_some_iff_first p t a]
      constructor
      · rintro ⟨i, hi, hpa, htake⟩
        refine ⟨i + 1, by simpa using hi, hpa, ?_⟩
        intro x hx
        rw [List.take_succ_cons] at hx
        rcases List.mem_cons.mp hx with rfl | hx'
        · exact hb
        · exact htake x hx'
      · rintro ⟨i, hi, hpa, htake⟩
        cases i with
        | zero =>
          have : b = a := by simpa using hi
          subst this
          rw [hpa] at hb
          exact absurd hb (by simp)
        | succ j =>
          refine ⟨j, by simpa using hi, hpa, fun x hx => htake x ?_⟩
          rw [List.take_succ_cons]
          exact List.mem_cons_of_mem _ hx
    · rw [List.find?_cons_of_pos _ (by simp [hb])]
      constructor
      · intro h
        have : b = a := by simpa using h
        subst this
        exact ⟨0, by simp, hb, by simp⟩
      · rintro ⟨i, hi, hpa, htake⟩
        cases i with
        | zero =>
          have : b = a := by simpa using hi
          rw [this]
        | succ j =>
          have hmem : b ∈ (b :: t).take (j + 1) := by
            rw [List.take_succ_cons]
            exact List.mem_cons_self _ _
          have := htake b hmem
          rw [hb] at this
          exact absurd this (by simp)

/-- C8 counterexample: with the scenario-B reference row (header
`Description, entry_index`) and the collected file2 row, no reference row
matches, but instead of emitting the differing row itself the writer
rejects it (`patch_commit_hash` and `field` are outside the header): the
run aborts with an uncaught `ValueError` and no data row is written. -/
theorem differ_output_counterexample :
    matchesRef refRow rowF2 = false ∧
    emitRow [refRow] rowF2 = rowF2 ∧
    rowFits refRow.keys rowF2 = false ∧
    differRun [refRow] [rowF2] = DifferRun.valueError refRow.keys [] := by
  refine ⟨by decide, by decide, by decide, by decide⟩

theorem writeLoop_all_fits (testRows : List Row) (fieldnames : List String) :
    ∀ l : List Row,
      (∀ r ∈ l, rowFits fieldnames (emitRow testRows r) = true) →
      writeLoop testRows fieldnames l
        = (l.map (emitRow testRows),
            some (l.filter
              (fun r =>
                (testRows.find? (fun t => matchesRef t r)).isSome)).length)
  | [], _ => by simp [writeLoop]
  | r :: rest, hall => by
    have hr := hall r (List.mem_cons_self _ _)
    have ih := writeLoop_all_fits testRows fieldnames rest
      (fun x hx => hall x (List.mem_cons_of_mem _ hx))
    simp only [writeLoop, hr, if_true]
    rw [ih]
    rcases hp : (testRows.find? (fun t => matchesRef t r)).isSome with - | -
    · simp [List.filter_cons, hp]
    · simp only [List.filter_cons, hp, if_true, List.map_cons,
        List.length_cons, Prod.mk.injEq, Option.some.injEq, true_and]
      omega

theorem writeLoop_abort (testRows : List Row) (fieldnames : List String) :
    ∀ l : List Row,
      (∃ r ∈ l, rowFits fieldnames (emitRow testRows r) = false) →
      writeLoop testRows fieldnames l
        = ((l.takeWhile
              (fun r => rowFits fieldnames (emitRow testRows r))).map
            (emitRow testRows), none)
  | [], h => by simp at h
  | r :: rest, h => by
    rcases hr : rowFits fieldnames (emitRow testRows r) with - | -
    · simp [writeLoop, hr, List.takeWhile_cons]
    · have hrest : ∃ x ∈ rest, rowFits fieldnames (emitRow testRows x) = false := by
        rcases h with ⟨x, hx, hfx⟩
        rcases List.mem_cons.mp hx with rfl | hx'
        · rw [hr] at hfx
          exact absurd hfx (by simp)
        · exact ⟨x, hx', hfx⟩
      have ih := writeLoop_abort testRows fieldnames rest hrest
      simp only [writeLoop, hr, if_true]
      rw [ih]
      simp [List.takeWhile_cons, hr]

/-- C8 (amended): with a nonempty reference file, the differ writes nothing
when no differing row was collected (the count `0` is still printed);
otherwise the header is always the first reference row's column names and
the row handed to the writer for each collected differing row is the first
reference row (in reference-file order) whose `Description` contains the
row's `patch_commit_hash` as a literal substring, or the differing row
itself when none matches.  A handed row is actually written only when all
its columns appear in the header: if every handed row fits, all are written
and the match count is printed; otherwise the writer raises an uncaught
`ValueError` at the first row that does not fit, having written only the
rows before it, and no count is printed. -/
theorem differ_run_characterization (testRows diffRows : List Row)
    (hts : testRows ≠ []) :
    (diffRows = [] → differRun testRows diffRows = DifferRun.ok none [] 0) ∧
    (diffRows ≠ [] →
      ((∀ r ∈ diffRows,
          rowFits testRows.headI.keys (emitRow testRows r) = true) →
        differRun testRows diffRows
          = DifferRun.ok (some testRows.headI.keys)
              (diffRows.map (emitRow testRows))
              (differCount testRows diffRows)) ∧
      ((∃ r ∈ diffRows,
          rowFits testRows.headI.keys (emitRow testRows r) = false) →
        differRun testRows diffRows
          = DifferRun.valueError testRows.headI.keys
              ((diffRows.takeWhile
                  (fun r =>
                    rowFits testRows.headI.keys (emitRow testRows r))).map
                (emitRow testRows)))) ∧
    (∀ d, (∃ i, testRows[i]? = some (emitRow testRows d) ∧
             matchesRef (emitRow testRows d) d = true ∧
             ∀ t ∈ testRows.take i, matchesRef t d = false) ∨
          ((∀ t ∈ testRows, matchesRef t d = false) ∧
             emitRow testRows d = d)) := by
  refine ⟨?_, ?_, ?_⟩
  · intro hd
    subst hd
    simp [differRun]
  · intro hd
    match testRows, hts with
    | t :: ts, _ =>
      have hne : ¬ ((diffRows.isEmpty) = true) := by simpa using hd
      constructor
      · intro hall
        unfold differRun
        rw [if_neg hne]
        dsimp only
        rw [writeLoop_all_fits (t :: ts) t.keys diffRows hall]
        rfl
      · intro hex
        unfold differRun
        rw [if_neg hne]
        dsimp only
        rw [writeLoop_abort (t :: ts) t.keys diffRows hex]
        rfl
  · intro d
    rcases h : testRows.find? (fun t => matchesRef t d) with - | t
    · refine Or.inr ⟨by simpa using List.find?_eq_none.mp h, ?_⟩
      unfold emitRow
      rw [h]
      rfl
    · have he : emitRow testRows d = t := by
        unfold emitRow
        rw [h]
        rfl
      obtain ⟨i, hi, hpa, htake⟩ := (find?_eq_some_iff_first _ testRows t).mp h
      exact Or.inl ⟨i, he ▸ hi, he ▸ hpa, htake⟩

/-- C8 witness: scenario B with the covering reference header — every
handed row fits, so the run completes with the reference header and the
handed row list, printing the match count. -/
theorem differ_run_characterization_witness :
    differRun [refRowB] [rowF2]
      = DifferRun.ok (some ([refRowB] : List Row).headI.keys)
          ([rowF2].map (emitRow [refRowB])) (differCount [refRowB] [rowF2]) :=
  ((differ_run_characterization [refRowB] [rowF2] (by decide)).2.1
    (by decide)).1 (by decide)
